import Mathlib

/-!
Verification of the koanf posflag provider (src/providers/posflag/posflag.go).

The provider reads an already-populated pflag flag registry and turns it
into a nested configuration map.  The embedding below translates the Go
source shallowly:

* `PFlag` models `pflag.Flag`: a name, the string returned by
  `flag.Value.Type()` (the declared type tag), the `Changed` marker, the
  type-erased current value, and the string rendering `flag.Value.String()`.
* `GoValue` models the type-erased value held by a flag; the per-type
  getters of `pflag.FlagSet` (`GetInt`, `GetInt8`, ..., `GetIntSlice`)
  succeed exactly when the flag exists, its declared tag matches, and the
  erased value has the requested shape; otherwise they fail, which in Go
  surfaces as `(zeroValue, err)`.
* Machine integers are modelled as `Int`: Go's widening conversions
  `int64(i)` from the narrower signed types are mathematically the
  identity on the represented value.  Float values are carried opaquely
  as their bit patterns (`Nat`); the provider never computes with them.
* `Posflag` models the provider struct, with the optional parent
  `koanf.Koanf` reduced to its only used capability, the existence
  oracle `Exists : String → Bool`.
* Go maps are modelled as insertion-ordered association lists with
  first-occurrence update (`aset`/`aget`); Go map iteration order is not
  observable in the properties below beyond multiset contents.
-/

/-- The generic configuration value model: what the provider stores in the
`map[string]interface{}` accumulator.  Signed integers of every declared
width are stored as a single 64-bit signed kind (`vInt64`); 32-bit and
64-bit floats are distinct kinds carrying their bit patterns opaquely. -/
inductive ConfValue where
  | vInt64 (i : Int)
  | vFloat32 (bits : Nat)
  | vFloat64 (bits : Nat)
  | vBool (b : Bool)
  | vString (s : String)
  | vStringSlice (xs : List String)
  | vIntSlice (xs : List Int)
deriving DecidableEq

/-- The type-erased current value of a flag, as held by the external pflag
registry (`flag.Value`).  `gOther` stands for any custom/unregistered
value type, observable only through its string rendering. -/
inductive GoValue where
  | gInt (i : Int)
  | gInt8 (i : Int)
  | gInt16 (i : Int)
  | gInt32 (i : Int)
  | gInt64 (i : Int)
  | gFloat32 (bits : Nat)
  | gFloat64 (bits : Nat)
  | gBool (b : Bool)
  | gStringSlice (xs : List String)
  | gIntSlice (xs : List Int)
  | gOther
deriving DecidableEq

/-- A pflag flag definition: name, declared type tag (`flag.Value.Type()`),
the `Changed` marker, the erased current value, and the string rendering
`flag.Value.String()`. -/
structure PFlag where
  name : String
  typeTag : String
  changed : Bool
  value : GoValue
  render : String
deriving DecidableEq

/-- First flag with the given name, as `FlagSet.Lookup` does. -/
def lookupFlag (fs : List PFlag) (name : String) : Option PFlag :=
  fs.find? (fun f => f.name == name)

/-- Association-list get with first-occurrence semantics. -/
def aget {α : Type} : List (String × α) → String → Option α
  | [], _ => none
  | (k', v) :: rest, k => if k' = k then some v else aget rest k

/-- Association-list set: replaces the first binding of the key, or appends
a new binding.  Models `m[k] = v` on a Go map. -/
def aset {α : Type} : List (String × α) → String → α → List (String × α)
  | [], k, v => [(k, v)]
  | (k', v') :: rest, k, v =>
    if k' = k then (k, v) :: rest else (k', v') :: aset rest k v

/-- The flat accumulator `mp : map[string]interface{}` built by `Read`. -/
abbrev FlatMap := List (String × ConfValue)

/-- `FlagSet.GetInt`: succeeds iff the flag exists, its declared tag is
"int" and the erased value is a platform int. -/
def fsGetInt (fs : List PFlag) (name : String) : Option Int :=
  match lookupFlag fs name with
  | some f =>
    if f.typeTag = "int" then
      match f.value with
      | .gInt i => some i
      | _ => none
    else none
  | none => none

/-- `FlagSet.GetInt8`. -/
def fsGetInt8 (fs : List PFlag) (name : String) : Option Int :=
  match lookupFlag fs name with
  | some f =>
    if f.typeTag = "int8" then
      match f.value with
      | .gInt8 i => some i
      | _ => none
    else none
  | none => none

/-- `FlagSet.GetInt16`. -/
def fsGetInt16 (fs : List PFlag) (name : String) : Option Int :=
  match lookupFlag fs name with
  | some f =>
    if f.typeTag = "int16" then
      match f.value with
      | .gInt16 i => some i
      | _ => none
    else none
  | none => none

/-- `FlagSet.GetInt32`. -/
def fsGetInt32 (fs : List PFlag) (name : String) : Option Int :=
  match lookupFlag fs name with
  | some f =>
    if f.typeTag = "int32" then
      match f.value with
      | .gInt32 i => some i
      | _ => none
    else none
  | none => none

/-- `FlagSet.GetInt64`. -/
def fsGetInt64 (fs : List PFlag) (name : String) : Option Int :=
  match lookupFlag fs name with
  | some f =>
    if f.typeTag = "int64" then
      match f.value with
      | .gInt64 i => some i
      | _ => none
    else none
  | none => none

/-- `FlagSet.GetFloat32` (value carried as its bit pattern). -/
def fsGetFloat32 (fs : List PFlag) (name : String) : Option Nat :=
  match lookupFlag fs name with
  | some f =>
    if f.typeTag = "float32" then
      match f.value with
      | .gFloat32 x => some x
      | _ => none
    else none
  | none => none

/-- `FlagSet.GetFloat64` (value carried as its bit pattern).  The source's
switch selects this getter for the tag "float". -/
def fsGetFloat64 (fs : List PFlag) (name : String) : Option Nat :=
  match lookupFlag fs name with
  | some f =>
    if f.typeTag = "float" then
      match f.value with
      | .gFloat64 x => some x
      | _ => none
    else none
  | none => none

/-- `FlagSet.GetBool`. -/
def fsGetBool (fs : List PFlag) (name : String) : Option Bool :=
  match lookupFlag fs name with
  | some f =>
    if f.typeTag = "bool" then
      match f.value with
      | .gBool b => some b
      | _ => none
    else none
  | none => none

/-- `FlagSet.GetStringSlice`. -/
def fsGetStringSlice (fs : List PFlag) (name : String) : Option (List String) :=
  match lookupFlag fs name with
  | some f =>
    if f.typeTag = "stringSlice" then
      match f.value with
      | .gStringSlice xs => some xs
      | _ => none
    else none
  | none => none

/-- `FlagSet.GetIntSlice`. -/
def fsGetIntSlice (fs : List PFlag) (name : String) : Option (List Int) :=
  match lookupFlag fs name with
  | some f =>
    if f.typeTag = "intSlice" then
      match f.value with
      | .gIntSlice xs => some xs
      | _ => none
    else none
  | none => none

/-- The `Posflag` provider struct.  The parent `koanf.Koanf` pointer is
modelled by its only used capability, the `Exists` oracle; `nil` pointers
and `nil` function fields are `none`. -/
structure Posflag where
  delim : String
  flagset : List PFlag
  ko : Option (String → Bool)
  valueCallback : Option (String → String → String × ConfValue)
  keyNameCallback : Option (PFlag → String)

/-- `Provider(f, delim, ko)`. -/
def Provider (f : List PFlag) (delim : String) (ko : Option (String → Bool)) : Posflag :=
  { delim := delim, flagset := f, ko := ko,
    valueCallback := none, keyNameCallback := none }

/-- `ProviderWithValue(f, delim, ko, cb)`. -/
def ProviderWithValue (f : List PFlag) (delim : String) (ko : Option (String → Bool))
    (cb : String → String → String × ConfValue) : Posflag :=
  { delim := delim, flagset := f, ko := ko,
    valueCallback := some cb, keyNameCallback := none }

/-- An `Option func(*Posflag)` configuration callback. -/
abbrev PosflagOption := Posflag → Posflag

/-- `ProviderWithOptions(f, delim, options...)`. -/
def ProviderWithOptions (f : List PFlag) (delim : String)
    (options : List PosflagOption) : Posflag :=
  options.foldl (fun p opt => opt p)
    { delim := delim, flagset := f, ko := none,
      valueCallback := none, keyNameCallback := none }

/-- `ParentKoanf(ko)` option. -/
def ParentKoanf (ko : Option (String → Bool)) : PosflagOption :=
  fun p => { p with ko := ko }

/-- `ValueCallback(cb)` option. -/
def ValueCallback (cb : String → String → String × ConfValue) : PosflagOption :=
  fun p => { p with valueCallback := some cb }

/-- `RenameCallback(cb)` option. -/
def RenameCallback (cb : PFlag → String) : PosflagOption :=
  fun p => { p with keyNameCallback := some cb }

/-- The candidate output key of a flag: `keyName` in `Read` — the rename
callback's result when configured, the raw flag name otherwise. -/
def candidateKey (p : Posflag) (f : PFlag) : String :=
  match p.keyNameCallback with
  | some cb => cb f
  | none => f.name

/-- The early-return condition of `Read`'s visit body: an unchanged flag
is skipped when no parent Koanf is configured, or when the parent Koanf
already has a value at the candidate key. -/
def gateSkips (p : Posflag) (f : PFlag) : Bool :=
  !f.changed &&
    (match p.ko with
     | some ex => ex (candidateKey p f)
     | none => true)

/-- The value-coercion-and-store stage of `Read`'s visit body: the
`switch f.Value.Type()` dispatch (posflag.go lines 89–129) followed by
`mp[keyName] = v`. -/
def storeFlag (p : Posflag) (mp : FlatMap) (f : PFlag) (keyName : String) : FlatMap :=
  match f.typeTag with
  | "int" => aset mp keyName (.vInt64 ((fsGetInt p.flagset f.name).getD 0))
  | "int8" => aset mp keyName (.vInt64 ((fsGetInt8 p.flagset f.name).getD 0))
  | "int16" => aset mp keyName (.vInt64 ((fsGetInt16 p.flagset f.name).getD 0))
  | "int32" => aset mp keyName (.vInt64 ((fsGetInt32 p.flagset f.name).getD 0))
  | "int64" => aset mp keyName (.vInt64 ((fsGetInt64 p.flagset f.name).getD 0))
  | "float32" => aset mp keyName (.vFloat32 ((fsGetFloat32 p.flagset f.name).getD 0))
  | "float" => aset mp keyName (.vFloat64 ((fsGetFloat64 p.flagset f.name).getD 0))
  | "bool" => aset mp keyName (.vBool ((fsGetBool p.flagset f.name).getD false))
  | "stringSlice" =>
    aset mp keyName (.vStringSlice ((fsGetStringSlice p.flagset f.name).getD []))
  | "intSlice" =>
    aset mp keyName (.vIntSlice ((fsGetIntSlice p.flagset f.name).getD []))
  | _ =>
    match p.valueCallback with
    | some cb =>
      let r := cb keyName f.render
      if r.1 = "" then mp else aset mp r.1 r.2
    | none => aset mp keyName (.vString f.render)

/-- One iteration of `p.flagset.VisitAll(func(f *pflag.PFlag) { ... })`:
compute the candidate key, apply the inclusion gate, then coerce and
store. -/
def processFlag (p : Posflag) (mp : FlatMap) (f : PFlag) : FlatMap :=
  if gateSkips p f then mp else storeFlag p mp f (candidateKey p f)

/-- The flat accumulator after the whole `VisitAll` pass of `Read`. -/
def readFlat (p : Posflag) : FlatMap :=
  p.flagset.foldl (fun mp f => processFlag p mp f) []

/-- A nested configuration value: either a leaf or a sub-map. -/
inductive NVal where
  | leaf (v : ConfValue)
  | sub (m : List (String × NVal))

/-- A nested configuration map, the shape of `Read`'s result. -/
abbrev NMap := List (String × NVal)

/-- Modelled from the spec: the delimiter-splitting of flat keys performed
by `maps.Unflatten` (Go's `strings.Split`) — the repository's `maps`
package is not under src/.  Fuel-based so that it evaluates by kernel
reduction; the fuel is the character count of the input, which bounds the
number of steps since every step consumes at least one character. -/
def splitChars (sep : List Char) : Nat → List Char → List Char → List (List Char)
  | 0, acc, rest => [acc.reverse ++ rest]
  | _ + 1, acc, [] => [acc.reverse]
  | fuel + 1, acc, c :: rest =>
    if sep.isPrefixOf (c :: rest) then
      acc.reverse :: splitChars sep fuel [] ((c :: rest).drop sep.length)
    else
      splitChars sep fuel (c :: acc) rest

/-- Modelled from the spec: split a flat key into its path segments by the
delimiter ("a key `a.b.c` with delimiter `.` becomes nested levels
a → b → c"); an empty delimiter yields the whole key as one segment. -/
def splitKey (s : String) (sep : String) : List String :=
  if sep = "" then [s]
  else (splitChars sep.toList s.toList.length [] s.toList).map (fun cs => ⟨cs⟩)

/-- Modelled from the spec: the nesting step of `maps.Unflatten` for one
entry — the repository's `maps` package is not under src/.  "a key
`a.b.c` with delimiter `.` becomes nested levels a → b → c → value";
intermediate levels are created (or descended into) as needed and the
final path segment receives the leaf. -/
def insertPath (m : NMap) (path : List String) (v : ConfValue) : NMap :=
  match path with
  | [] => m
  | [k] => aset m k (.leaf v)
  | k :: ks =>
    match aget m k with
    | some (.sub m') => aset m k (.sub (insertPath m' ks v))
    | _ => aset m k (.sub (insertPath [] ks v))

/-- Modelled from the spec: `maps.Unflatten(mp, delim)` — the repository's
`maps` package is not under src/.  "expand every key in the flat
accumulator by the configured delimiter into a nested tree structure". -/
def Unflatten (mp : FlatMap) (delim : String) : NMap :=
  mp.foldl (fun acc kv => insertPath acc (splitKey kv.1 delim) kv.2) []

/-- `Read()`: visit every flag building the flat accumulator, then
unflatten it by the configured delimiter; the error result is always
nil (`none`). -/
def Read (p : Posflag) : NMap × Option String :=
  (Unflatten (readFlat p) p.delim, none)

/-- `ReadBytes()`: always `(nil, error)`. -/
def ReadBytes (_ : Posflag) : Option (List Nat) × Option String :=
  (none, some "pflag provider does not support this method")

/-- `Watch(cb)`: always returns the "not supported" error; the callback is
never invoked (the result does not depend on it). -/
def Watch {α : Type} (_ : Posflag) (_ : α) : Option String :=
  some "posflag provider does not support this method"

mutual

/-- The (path, leaf value) pairs reachable inside one nested value. -/
def pathsOfVal : NVal → List (List String × ConfValue)
  | .leaf v => [([], v)]
  | .sub m => pathsOfMap m

/-- The (path, leaf value) pairs of a nested map, in depth-first order. -/
def pathsOfMap : NMap → List (List String × ConfValue)
  | [] => []
  | (k, nv) :: rest =>
    (pathsOfVal nv).map (fun pv => (k :: pv.1, pv.2)) ++ pathsOfMap rest

end

/-- Modelled from the spec: re-flattening a nested tree by the delimiter
("flattening the tree using the same delimiter must reproduce the original
FlatEntry set") — the repository's `maps` package is not under src/.
Every leaf becomes one flat entry whose key joins the path segments with
the delimiter. -/
def Flatten (m : NMap) (delim : String) : FlatMap :=
  (pathsOfMap m).map (fun pv => (String.intercalate delim pv.1, pv.2))

/-- The spec's "no delimiter collisions" precondition on a flat entry set:
every key splits into a nonempty segment path that joins back to the same
key, and no two entries have equal or prefix-related segment paths (so no
entry's key names a point inside another entry's subtree). -/
def NoDelimCollisions (delim : String) (mp : FlatMap) : Prop :=
  (∀ kv ∈ mp, splitKey kv.1 delim ≠ [] ∧
    String.intercalate delim (splitKey kv.1 delim) = kv.1)
  ∧ (mp.map (fun kv => splitKey kv.1 delim)).Pairwise
      (fun pq rs => ¬ pq <+: rs ∧ ¬ rs <+: pq)

/-- The `VisitAll` body with the visited flag threaded as explicit state:
the Go body only reads `f.Name`, `f.Changed`, `f.Value` and the getters —
it contains no assignment to the flag, the flag set, or the provider — so
the translated body returns the flag state exactly as received. -/
def processFlagSt (p : Posflag) (mp : FlatMap) (f : PFlag) : FlatMap × PFlag :=
  (processFlag p mp f, f)

/-- `Read()` with the registry threaded as explicit state: the visit
rebuilds the registry from the per-flag output states, and the provider
is rebuilt from the resulting registry, making any mutation of either
observable in the second component. -/
def ReadSt (p : Posflag) : (NMap × Option String) × Posflag :=
  let st := p.flagset.foldl
    (fun (acc : FlatMap × List PFlag) f =>
      ((processFlagSt p acc.1 f).1, acc.2 ++ [(processFlagSt p acc.1 f).2]))
    ([], [])
  ((Unflatten st.1 p.delim, none), { p with flagset := st.2 })

theorem aget_aset_self {α : Type} (m : List (String × α)) (k : String) (v : α) :
    aget (aset m k v) k = some v := by
  induction m with
  | nil => simp [aset, aget]
  | cons kv rest ih =>
    obtain ⟨k', v'⟩ := kv
    by_cases h : k' = k <;> simp [aset, aget, h, ih]

theorem aget_aset_ne {α : Type} (m : List (String × α)) (k k' : String) (v : α)
    (h : k' ≠ k) : aget (aset m k v) k' = aget m k' := by
  induction m with
  | nil => simp [aset, aget, Ne.symm h]
  | cons kv rest ih =>
    obtain ⟨k₀, v₀⟩ := kv
    by_cases h0 : k₀ = k <;> by_cases h1 : k₀ = k' <;>
      simp_all [aset, aget]

theorem storeFlag_default (p : Posflag) (mp : FlatMap) (f : PFlag) (k : String)
    (hother : f.typeTag ∉ (["int", "int8", "int16", "int32", "int64", "float32",
      "float", "bool", "stringSlice", "intSlice"] : List String)) :
    storeFlag p mp f k =
      match p.valueCallback with
      | some cb =>
        if (cb k f.render).1 = "" then mp
        else aset mp (cb k f.render).1 (cb k f.render).2
      | none => aset mp k (.vString f.render) := by
  simp only [List.mem_cons, List.not_mem_nil, or_false, not_or] at hother
  unfold storeFlag
  repeat' split
  all_goals simp_all

theorem aset_of_aget_none {α : Type} (m : List (String × α)) (k : String) (v : α)
    (h : aget m k = none) : aset m k v = m ++ [(k, v)] := by
  induction m with
  | nil => simp [aset]
  | cons kv rest ih =>
    obtain ⟨k₀, v₀⟩ := kv
    by_cases h0 : k₀ = k
    · simp [aget, h0] at h
    · simp only [aget, if_neg h0] at h
      simp [aset, h0, ih h]

theorem pathsOfMap_append (a b : NMap) :
    pathsOfMap (a ++ b) = pathsOfMap a ++ pathsOfMap b := by
  induction a with
  | nil => simp [pathsOfMap]
  | cons kv rest ih =>
    obtain ⟨k, nv⟩ := kv
    simp [pathsOfMap, ih]

theorem mem_pathsOfMap_of_aget (m : NMap) (k : String) (nv : NVal)
    (h : aget m k = some nv) :
    ∀ pv ∈ pathsOfVal nv, (k :: pv.1, pv.2) ∈ pathsOfMap m := by
  induction m with
  | nil => simp [aget] at h
  | cons kv rest ih =>
    obtain ⟨k₀, nv₀⟩ := kv
    intro pv hpv
    rw [pathsOfMap]
    rcases eq_or_ne k₀ k with h0 | h0
    · rw [aget, if_pos h0] at h
      obtain rfl : nv₀ = nv := by injection h
      subst h0
      exact List.mem_append_left _ (List.mem_map_of_mem _ hpv)
    · rw [aget, if_neg h0] at h
      exact List.mem_append_right _ (ih h pv hpv)

theorem pathsOfMap_aset_perm (m : NMap) (k : String) (old nv : NVal)
    (h : aget m k = some old) :
    List.Perm
      (pathsOfMap (aset m k nv) ++ (pathsOfVal old).map (fun pv => (k :: pv.1, pv.2)))
      (pathsOfMap m ++ (pathsOfVal nv).map (fun pv => (k :: pv.1, pv.2))) := by
  induction m with
  | nil => simp [aget] at h
  | cons kv rest ih =>
    obtain ⟨k₀, nv₀⟩ := kv
    rcases eq_or_ne k₀ k with h0 | h0
    · rw [aget, if_pos h0] at h
      obtain rfl : nv₀ = old := by injection h
      subst h0
      simp only [aset, if_pos rfl, pathsOfMap]
      refine List.Perm.trans (List.Perm.of_eq (List.append_assoc _ _ _)) ?_
      refine List.Perm.trans List.perm_append_comm ?_
      exact List.Perm.append_right _ List.perm_append_comm
    · rw [aget, if_neg h0] at h
      simp only [aset, if_neg h0, pathsOfMap]
      refine List.Perm.trans (List.Perm.of_eq (List.append_assoc _ _ _)) ?_
      refine List.Perm.trans (List.Perm.append_left _ (ih h)) ?_
      exact List.Perm.of_eq (List.append_assoc _ _ _).symm

theorem pathsOfMap_insertPath_nil : ∀ (ks : List String) (v : ConfValue), ks ≠ [] →
    pathsOfMap (insertPath [] ks v) = [(ks, v)]
  | [], _, h => absurd rfl h
  | [k], v, _ => by
    simp [insertPath, aset, pathsOfMap, pathsOfVal]
  | k :: k' :: ks, v, _ => by
    have ih := pathsOfMap_insertPath_nil (k' :: ks) v (by simp)
    simp [insertPath, aget, aset, pathsOfMap, pathsOfVal, ih]

theorem insertPath_cons_cons (m : NMap) (k k' : String) (ks : List String)
    (v : ConfValue) :
    insertPath m (k :: k' :: ks) v =
      match aget m k with
      | some (.sub m') => aset m k (.sub (insertPath m' (k' :: ks) v))
      | _ => aset m k (.sub (insertPath [] (k' :: ks) v)) := by
  rfl

theorem pathsOfMap_insertPath : ∀ (pa : List String) (v : ConfValue) (m : NMap),
    pa ≠ [] →
    (∀ q ∈ pathsOfMap m, ¬ pa <+: q.1 ∧ ¬ q.1 <+: pa) →
    List.Perm (pathsOfMap (insertPath m pa v)) ((pa, v) :: pathsOfMap m)
  | [], _, _, h, _ => absurd rfl h
  | [k], v, m, _, hq => by
    rw [insertPath]
    rcases hag : aget m k with _ | old
    · rw [aset_of_aget_none m k _ hag, pathsOfMap_append]
      simp only [pathsOfMap, pathsOfVal, List.map_cons, List.map_nil, List.append_nil,
        List.nil_append]
      exact List.perm_append_singleton _ _
    · have hempty : pathsOfVal old = [] := by
        by_contra hne
        obtain ⟨pv, hpv⟩ := List.exists_mem_of_ne_nil _ hne
        have hmem := mem_pathsOfMap_of_aget m k old hag pv hpv
        exact (hq _ hmem).1 ⟨pv.1, rfl⟩
      have hperm := pathsOfMap_aset_perm m k old (.leaf v) hag
      rw [hempty] at hperm
      simp only [List.map_nil, List.append_nil, pathsOfVal, List.map_cons, List.map_nil] at hperm
      refine hperm.trans ?_
      exact List.perm_append_singleton _ _
  | k :: k' :: ks, v, m, _, hq => by
    have hpne : (k' :: ks : List String) ≠ [] := by simp
    rcases hag : aget m k with _ | nv₀
    · rw [insertPath_cons_cons]
      simp only [hag]
      rw [aset_of_aget_none m k _ hag, pathsOfMap_append]
      simp only [pathsOfMap, pathsOfVal, List.append_nil,
        pathsOfMap_insertPath_nil (k' :: ks) v hpne, List.map_cons, List.map_nil]
      exact List.perm_append_singleton _ _
    · rcases nv₀ with w | m'
      · exfalso
        have hmem := mem_pathsOfMap_of_aget m k (.leaf w) hag ([], w) (by simp [pathsOfVal])
        exact (hq _ hmem).2 ⟨k' :: ks, rfl⟩
      · have hsub : ∀ r ∈ pathsOfMap m',
            ¬ (k' :: ks) <+: r.1 ∧ ¬ r.1 <+: (k' :: ks) := by
          intro r hr
          have hmem := mem_pathsOfMap_of_aget m k (.sub m') hag r hr
          have h2 := hq _ hmem
          exact ⟨fun hpre => h2.1 (List.cons_prefix_cons.mpr ⟨rfl, hpre⟩),
            fun hpre => h2.2 (List.cons_prefix_cons.mpr ⟨rfl, hpre⟩)⟩
        have ih := pathsOfMap_insertPath (k' :: ks) v m' hpne hsub
        have hex := pathsOfMap_aset_perm m k (.sub m')
          (.sub (insertPath m' (k' :: ks) v)) hag
        simp only [pathsOfVal] at hex
        have hN : List.Perm
            ((pathsOfMap (insertPath m' (k' :: ks) v)).map (fun pv => (k :: pv.1, pv.2)))
            ((k :: k' :: ks, v) :: (pathsOfMap m').map (fun pv => (k :: pv.1, pv.2))) := by
          simpa using ih.map (fun pv => (k :: pv.1, pv.2))
        have hfinal : List.Perm
            (pathsOfMap (aset m k (.sub (insertPath m' (k' :: ks) v))) ++
              (pathsOfMap m').map (fun pv => (k :: pv.1, pv.2)))
            (((k :: k' :: ks, v) :: pathsOfMap m) ++
              (pathsOfMap m').map (fun pv => (k :: pv.1, pv.2))) := by
          refine hex.trans ?_
          refine (List.Perm.append_left _ hN).trans ?_
          exact List.perm_middle
        rw [insertPath_cons_cons]
        simp only [hag]
        exact (List.perm_append_right_iff _).mp hfinal

theorem pathsOfMap_foldl_insert :
    ∀ (l : List (List String × ConfValue)) (m : NMap),
    (∀ pv ∈ l, pv.1 ≠ []) →
    l.Pairwise (fun pv qv => ¬ pv.1 <+: qv.1 ∧ ¬ qv.1 <+: pv.1) →
    (∀ pv ∈ l, ∀ q ∈ pathsOfMap m,
      ¬ pv.1 <+: q.1 ∧ ¬ q.1 <+: pv.1) →
    List.Perm (pathsOfMap (l.foldl (fun acc pv => insertPath acc pv.1 pv.2) m))
      (l ++ pathsOfMap m)
  | [], m, _, _, _ => by simp
  | ⟨pp, vv⟩ :: rest, m, hne, hpw, hsep => by
    rw [List.foldl_cons]
    have hins := pathsOfMap_insertPath pp vv m (hne ⟨pp, vv⟩ (by simp))
      (fun q hq => hsep ⟨pp, vv⟩ (by simp) q hq)
    have hne' : ∀ qv ∈ rest, qv.1 ≠ [] := fun qv h => hne qv (by simp [h])
    have hhead := (List.pairwise_cons.mp hpw).1
    have hpw' := (List.pairwise_cons.mp hpw).2
    have hsep' : ∀ qv ∈ rest, ∀ q ∈ pathsOfMap (insertPath m pp vv),
        ¬ qv.1 <+: q.1 ∧ ¬ q.1 <+: qv.1 := by
      intro qv hqv q hq
      have hq' := hins.mem_iff.mp hq
      rcases List.mem_cons.mp hq' with rfl | hq''
      · have h2 := hhead qv hqv
        exact ⟨h2.2, h2.1⟩
      · exact hsep qv (by simp [hqv]) q hq''
    have ihp := pathsOfMap_foldl_insert rest (insertPath m pp vv) hne' hpw' hsep'
    refine ihp.trans ?_
    refine (List.Perm.append_left rest hins).trans ?_
    exact List.perm_middle

/-- Claim C1: for every flag, `Read`'s per-flag inclusion decision is: an
unchanged flag with no parent Koanf contributes nothing; an unchanged
flag with a parent Koanf reaches the value-coercion/store stage exactly
when the oracle reports the candidate key absent; a changed flag always
reaches the value-coercion/store stage, whatever the oracle is. -/
theorem claim_C1_inclusion (p : Posflag) (mp : FlatMap) (f : PFlag) :
    (f.changed = false → p.ko = none → processFlag p mp f = mp)
    ∧ (f.changed = false → ∀ ex, p.ko = some ex →
        (ex (candidateKey p f) = true → processFlag p mp f = mp)
        ∧ (ex (candidateKey p f) = false →
            processFlag p mp f = storeFlag p mp f (candidateKey p f)))
    ∧ (f.changed = true → processFlag p mp f = storeFlag p mp f (candidateKey p f)) := by
  refine ⟨fun hch hko => ?_, fun hch ex hko => ⟨fun hex => ?_, fun hex => ?_⟩,
    fun hch => ?_⟩
  · simp [processFlag, gateSkips, hch, hko]
  · simp [processFlag, gateSkips, hch, hko, hex]
  · simp [processFlag, gateSkips, hch, hko, hex]
  · simp [processFlag, gateSkips, hch]

theorem claim_C1_inclusion_witness :
    ((⟨"a", "int", false, .gInt 1, "1"⟩ : PFlag).changed = false
      ∧ (Provider [] "." none).ko = none
      ∧ processFlag (Provider [] "." none) [] ⟨"a", "int", false, .gInt 1, "1"⟩ = [])
    ∧ ((Provider [] "." (some fun k => k == "a")).ko = some (fun k => k == "a")
      ∧ (fun k => k == "a") (candidateKey (Provider [] "." (some fun k => k == "a"))
          ⟨"a", "int", false, .gInt 1, "1"⟩) = true
      ∧ processFlag (Provider [] "." (some fun k => k == "a")) []
          ⟨"a", "int", false, .gInt 1, "1"⟩ = [])
    ∧ ((⟨"b", "int", true, .gInt 2, "2"⟩ : PFlag).changed = true
      ∧ processFlag (Provider [] "." none) [] ⟨"b", "int", true, .gInt 2, "2"⟩ =
          storeFlag (Provider [] "." none) [] ⟨"b", "int", true, .gInt 2, "2"⟩
            (candidateKey (Provider [] "." none) ⟨"b", "int", true, .gInt 2, "2"⟩)) :=
  ⟨⟨rfl, rfl,
      (claim_C1_inclusion (Provider [] "." none) [] ⟨"a", "int", false, .gInt 1, "1"⟩).1
        rfl rfl⟩,
    ⟨rfl, rfl,
      ((claim_C1_inclusion (Provider [] "." (some fun k => k == "a")) []
          ⟨"a", "int", false, .gInt 1, "1"⟩).2.1 rfl _ rfl).1 rfl⟩,
    ⟨rfl,
      (claim_C1_inclusion (Provider [] "." none) []
          ⟨"b", "int", true, .gInt 2, "2"⟩).2.2 rfl⟩⟩

/-- Claim C3: every included flag whose declared tag is a signed-integer
variant of any width is stored as a 64-bit signed integer holding the
same numeric value (Go's widening conversion `int64(·)` is the identity
on the represented value). -/
theorem claim_C3_widening (p : Posflag) (mp : FlatMap) (f : PFlag) (i : Int)
    (hfind : lookupFlag p.flagset f.name = some f)
    (hgate : gateSkips p f = false) :
    (f.typeTag = "int" → f.value = .gInt i →
      aget (processFlag p mp f) (candidateKey p f) = some (.vInt64 i))
    ∧ (f.typeTag = "int8" → f.value = .gInt8 i →
      aget (processFlag p mp f) (candidateKey p f) = some (.vInt64 i))
    ∧ (f.typeTag = "int16" → f.value = .gInt16 i →
      aget (processFlag p mp f) (candidateKey p f) = some (.vInt64 i))
    ∧ (f.typeTag = "int32" → f.value = .gInt32 i →
      aget (processFlag p mp f) (candidateKey p f) = some (.vInt64 i))
    ∧ (f.typeTag = "int64" → f.value = .gInt64 i →
      aget (processFlag p mp f) (candidateKey p f) = some (.vInt64 i)) := by
  refine ⟨?_, ?_, ?_, ?_, ?_⟩ <;> intro ht hv <;>
    simp [processFlag, hgate, storeFlag, ht, fsGetInt, fsGetInt8, fsGetInt16,
      fsGetInt32, fsGetInt64, hfind, hv, aget_aset_self]

theorem claim_C3_widening_witness :
    (lookupFlag [⟨"lvl", "int8", true, .gInt8 127, "127"⟩] "lvl" =
        some ⟨"lvl", "int8", true, .gInt8 127, "127"⟩)
    ∧ (gateSkips (Provider [⟨"lvl", "int8", true, .gInt8 127, "127"⟩] "." none)
        ⟨"lvl", "int8", true, .gInt8 127, "127"⟩ = false)
    ∧ aget (processFlag (Provider [⟨"lvl", "int8", true, .gInt8 127, "127"⟩] "." none)
        [] ⟨"lvl", "int8", true, .gInt8 127, "127"⟩)
        (candidateKey (Provider [⟨"lvl", "int8", true, .gInt8 127, "127"⟩] "." none)
          ⟨"lvl", "int8", true, .gInt8 127, "127"⟩) = some (.vInt64 127) :=
  ⟨by decide, by decide,
    (claim_C3_widening (Provider [⟨"lvl", "int8", true, .gInt8 127, "127"⟩] "." none)
      [] ⟨"lvl", "int8", true, .gInt8 127, "127"⟩ 127 (by decide) (by decide)).2.1
      rfl rfl⟩

/-- Claim C4: an included flag with declared tag "float32" is stored as a
32-bit float and one with the source's 64-bit float tag ("float") as a
64-bit float; the two kinds are distinct from each other and from
strings. -/
theorem claim_C4_floats (p : Posflag) (mp : FlatMap) (f : PFlag) (x : Nat)
    (hfind : lookupFlag p.flagset f.name = some f)
    (hgate : gateSkips p f = false) :
    (f.typeTag = "float32" → f.value = .gFloat32 x →
      aget (processFlag p mp f) (candidateKey p f) = some (.vFloat32 x))
    ∧ (f.typeTag = "float" → f.value = .gFloat64 x →
      aget (processFlag p mp f) (candidateKey p f) = some (.vFloat64 x))
    ∧ (∀ a b : Nat, ConfValue.vFloat32 a ≠ ConfValue.vFloat64 b)
    ∧ (∀ (a : Nat) (s : String), ConfValue.vFloat32 a ≠ ConfValue.vString s)
    ∧ (∀ (a : Nat) (s : String), ConfValue.vFloat64 a ≠ ConfValue.vString s) := by
  refine ⟨?_, ?_, fun a b => by simp, fun a s => by simp, fun a s => by simp⟩ <;>
    intro ht hv <;>
    simp [processFlag, hgate, storeFlag, ht, fsGetFloat32, fsGetFloat64, hfind, hv,
      aget_aset_self]

theorem claim_C4_floats_witness :
    (lookupFlag [⟨"ratio", "float", true, .gFloat64 4614253070214989087, "3.14"⟩]
        "ratio" = some ⟨"ratio", "float", true, .gFloat64 4614253070214989087, "3.14"⟩)
    ∧ (gateSkips
        (Provider [⟨"ratio", "float", true, .gFloat64 4614253070214989087, "3.14"⟩]
          "." none)
        ⟨"ratio", "float", true, .gFloat64 4614253070214989087, "3.14"⟩ = false)
    ∧ aget (processFlag
        (Provider [⟨"ratio", "float", true, .gFloat64 4614253070214989087, "3.14"⟩]
          "." none)
        [] ⟨"ratio", "float", true, .gFloat64 4614253070214989087, "3.14"⟩)
        (candidateKey
          (Provider [⟨"ratio", "float", true, .gFloat64 4614253070214989087, "3.14"⟩]
            "." none)
          ⟨"ratio", "float", true, .gFloat64 4614253070214989087, "3.14"⟩) =
        some (.vFloat64 4614253070214989087) :=
  ⟨by decide, by decide,
    (claim_C4_floats
      (Provider [⟨"ratio", "float", true, .gFloat64 4614253070214989087, "3.14"⟩]
        "." none)
      [] ⟨"ratio", "float", true, .gFloat64 4614253070214989087, "3.14"⟩
      4614253070214989087 (by decide) (by decide)).2.1 rfl rfl⟩

/-- Claim C5: an included flag whose declared tag is none of the
recognized primitive/slice tags goes through the value-transform
callback when one is configured — its returned (key, value) pair is
stored as returned, and an empty returned key drops the flag entirely
(even when `changed = true`, which `hgate` allows); with no callback the
string rendering is stored under the candidate key. -/
theorem claim_C5_custom (p : Posflag) (mp : FlatMap) (f : PFlag)
    (hother : f.typeTag ∉ (["int", "int8", "int16", "int32", "int64", "float32",
      "float", "bool", "stringSlice", "intSlice"] : List String))
    (hgate : gateSkips p f = false) :
    (∀ cb, p.valueCallback = some cb →
      processFlag p mp f =
        if (cb (candidateKey p f) f.render).1 = "" then mp
        else aset mp (cb (candidateKey p f) f.render).1
          (cb (candidateKey p f) f.render).2)
    ∧ (p.valueCallback = none →
      processFlag p mp f = aset mp (candidateKey p f) (.vString f.render)) := by
  constructor
  · intro cb hcb
    simp [processFlag, hgate, storeFlag_default p mp f _ hother, hcb]
  · intro hcb
    simp [processFlag, hgate, storeFlag_default p mp f _ hother, hcb]

theorem claim_C5_custom_witness :
    ((⟨"d", "duration", true, .gOther, "5s"⟩ : PFlag).typeTag ∉
      (["int", "int8", "int16", "int32", "int64", "float32",
        "float", "bool", "stringSlice", "intSlice"] : List String))
    ∧ (gateSkips (ProviderWithValue [⟨"d", "duration", true, .gOther, "5s"⟩] "."
        none (fun _ _ => ("", .vBool true)))
        ⟨"d", "duration", true, .gOther, "5s"⟩ = false)
    ∧ processFlag (ProviderWithValue [⟨"d", "duration", true, .gOther, "5s"⟩] "."
        none (fun _ _ => ("", .vBool true)))
        [] ⟨"d", "duration", true, .gOther, "5s"⟩ =
        (if (("", ConfValue.vBool true) : String × ConfValue).1 = "" then
          ([] : FlatMap)
        else aset [] ("" : String) (ConfValue.vBool true)) :=
  ⟨by decide, by decide,
    (claim_C5_custom (ProviderWithValue [⟨"d", "duration", true, .gOther, "5s"⟩] "."
        none (fun _ _ => ("", .vBool true)))
      [] ⟨"d", "duration", true, .gOther, "5s"⟩ (by decide) (by decide)).1
      (fun _ _ => ("", .vBool true)) rfl⟩

/-- Claim C6: with a key-rename callback configured, the candidate key is
the callback's result; the oracle inclusion check is performed on that
renamed key; and (when the value-transform cannot override the key) the
contribution lands under the renamed key while all other keys keep their
previous bindings. -/
theorem claim_C6_rename (p : Posflag) (mp : FlatMap) (f : PFlag) (cb : PFlag → String)
    (hcb : p.keyNameCallback = some cb) :
    (candidateKey p f = cb f)
    ∧ (f.changed = false → ∀ ex, p.ko = some ex → ex (cb f) = true →
        processFlag p mp f = mp)
    ∧ (gateSkips p f = false → p.valueCallback = none →
        (∃ v, aget (processFlag p mp f) (cb f) = some v)
        ∧ (∀ k, k ≠ cb f → aget (processFlag p mp f) k = aget mp k)) := by
  have hkey : candidateKey p f = cb f := by simp [candidateKey, hcb]
  refine ⟨hkey, fun hch ex hko hex => ?_, fun hgate hvc => ⟨?_, fun k hk => ?_⟩⟩
  · simp [processFlag, gateSkips, hkey, hch, hko, hex]
  · rw [processFlag, hgate, if_neg (by simp)]
    unfold storeFlag
    rw [hkey]
    repeat' split
    all_goals first
      | exact ⟨_, aget_aset_self mp (cb f) _⟩
      | simp_all
  · rw [processFlag, hgate, if_neg (by simp)]
    unfold storeFlag
    rw [hkey]
    repeat' split
    all_goals first
      | exact aget_aset_ne mp (cb f) k _ hk
      | simp_all [aget_aset_ne, hk]

theorem claim_C6_rename_witness :
    ((ProviderWithOptions [⟨"a-b", "int", false, .gInt 7, "7"⟩] "."
        [ParentKoanf (some fun k => k == "a.b"),
          RenameCallback (fun f => "a." ++ (f.name.drop 2))]).keyNameCallback =
      some (fun f => "a." ++ (f.name.drop 2)))
    ∧ ((⟨"a-b", "int", false, .gInt 7, "7"⟩ : PFlag).changed = false
      ∧ (ProviderWithOptions [⟨"a-b", "int", false, .gInt 7, "7"⟩] "."
          [ParentKoanf (some fun k => k == "a.b"),
            RenameCallback (fun f => "a." ++ (f.name.drop 2))]).ko =
          some (fun k => k == "a.b")
      ∧ (fun k => k == "a.b") ((fun f : PFlag => "a." ++ (f.name.drop 2))
          ⟨"a-b", "int", false, .gInt 7, "7"⟩) = true
      ∧ processFlag (ProviderWithOptions [⟨"a-b", "int", false, .gInt 7, "7"⟩] "."
          [ParentKoanf (some fun k => k == "a.b"),
            RenameCallback (fun f => "a." ++ (f.name.drop 2))])
          [] ⟨"a-b", "int", false, .gInt 7, "7"⟩ = []) :=
  ⟨rfl,
    rfl, rfl, by decide,
    ((claim_C6_rename (ProviderWithOptions [⟨"a-b", "int", false, .gInt 7, "7"⟩] "."
        [ParentKoanf (some fun k => k == "a.b"),
          RenameCallback (fun f => "a." ++ (f.name.drop 2))])
      [] ⟨"a-b", "int", false, .gInt 7, "7"⟩
      (fun f => "a." ++ (f.name.drop 2)) rfl).2.1 rfl _ rfl (by decide))⟩

/-- Claim C7: `Read` has no failure mode — the error component is always
nil — and when a typed getter fails at the collaborator boundary the
zero value of the requested type is stored instead of aborting. -/
theorem claim_C7_no_failure (p : Posflag) (mp : FlatMap) (f : PFlag)
    (hgate : gateSkips p f = false) :
    (∀ q : Posflag, (Read q).2 = none)
    ∧ (f.typeTag = "int" → fsGetInt p.flagset f.name = none →
        aget (processFlag p mp f) (candidateKey p f) = some (.vInt64 0))
    ∧ (f.typeTag = "int8" → fsGetInt8 p.flagset f.name = none →
        aget (processFlag p mp f) (candidateKey p f) = some (.vInt64 0))
    ∧ (f.typeTag = "int16" → fsGetInt16 p.flagset f.name = none →
        aget (processFlag p mp f) (candidateKey p f) = some (.vInt64 0))
    ∧ (f.typeTag = "int32" → fsGetInt32 p.flagset f.name = none →
        aget (processFlag p mp f) (candidateKey p f) = some (.vInt64 0))
    ∧ (f.typeTag = "int64" → fsGetInt64 p.flagset f.name = none →
        aget (processFlag p mp f) (candidateKey p f) = some (.vInt64 0))
    ∧ (f.typeTag = "float32" → fsGetFloat32 p.flagset f.name = none →
        aget (processFlag p mp f) (candidateKey p f) = some (.vFloat32 0))
    ∧ (f.typeTag = "float" → fsGetFloat64 p.flagset f.name = none →
        aget (processFlag p mp f) (candidateKey p f) = some (.vFloat64 0))
    ∧ (f.typeTag = "bool" → fsGetBool p.flagset f.name = none →
        aget (processFlag p mp f) (candidateKey p f) = some (.vBool false))
    ∧ (f.typeTag = "stringSlice" → fsGetStringSlice p.flagset f.name = none →
        aget (processFlag p mp f) (candidateKey p f) = some (.vStringSlice []))
    ∧ (f.typeTag = "intSlice" → fsGetIntSlice p.flagset f.name = none →
        aget (processFlag p mp f) (candidateKey p f) = some (.vIntSlice [])) := by
  refine ⟨fun q => rfl, ?_, ?_, ?_, ?_, ?_, ?_, ?_, ?_, ?_, ?_⟩ <;> intro ht hz <;>
    simp [processFlag, hgate, storeFlag, ht, hz, aget_aset_self]

theorem claim_C7_no_failure_witness :
    (gateSkips (Provider [⟨"n", "int", true, .gBool true, "?"⟩] "." none)
        ⟨"n", "int", true, .gBool true, "?"⟩ = false)
    ∧ ((⟨"n", "int", true, .gBool true, "?"⟩ : PFlag).typeTag = "int")
    ∧ (fsGetInt [⟨"n", "int", true, .gBool true, "?"⟩] "n" = none)
    ∧ aget (processFlag (Provider [⟨"n", "int", true, .gBool true, "?"⟩] "." none)
        [] ⟨"n", "int", true, .gBool true, "?"⟩)
        (candidateKey (Provider [⟨"n", "int", true, .gBool true, "?"⟩] "." none)
          ⟨"n", "int", true, .gBool true, "?"⟩) = some (.vInt64 0) :=
  ⟨by decide, rfl, by decide,
    (claim_C7_no_failure (Provider [⟨"n", "int", true, .gBool true, "?"⟩] "." none)
      [] ⟨"n", "int", true, .gBool true, "?"⟩ (by decide)).2.1 rfl (by decide)⟩

/-- Claim C8: `ReadBytes` always returns nil bytes with the "not
supported" error, `Watch` always returns the "not supported" error, and
`Watch`'s result never depends on (hence never invokes) the callback. -/
theorem claim_C8_unsupported :
    (∀ p : Posflag,
      ReadBytes p = (none, some "pflag provider does not support this method"))
    ∧ (∀ (α : Type) (p : Posflag) (cb : α),
      Watch p cb = some "posflag provider does not support this method")
    ∧ (∀ (α β : Type) (p : Posflag) (cb : α) (cb' : β), Watch p cb = Watch p cb') :=
  ⟨fun _ => rfl, fun _ _ _ => rfl, fun _ _ _ _ _ => rfl⟩

/-- Claim C9: extraction is read-only on the registry and keeps no state:
threading the registry and provider through the visit returns them
unchanged, the threaded run computes exactly `Read`, and a second call
on the state left by the first is identical. -/
theorem claim_C9_no_mutation (p : Posflag) :
    (ReadSt p).2 = p ∧ (ReadSt p).1 = Read p ∧ ReadSt ((ReadSt p).2) = ReadSt p := by
  have hfold : ∀ (l : List PFlag) (mp : FlatMap) (acc : List PFlag),
      l.foldl (fun (a : FlatMap × List PFlag) f =>
        ((processFlagSt p a.1 f).1, a.2 ++ [(processFlagSt p a.1 f).2])) (mp, acc) =
      (l.foldl (fun mp f => processFlag p mp f) mp, acc ++ l) := by
    intro l
    induction l with
    | nil => intro mp acc; simp
    | cons f rest ih =>
      intro mp acc
      rw [List.foldl_cons, List.foldl_cons, ih]
      simp [processFlagSt]
  have h2 : (ReadSt p).2 = p := by
    simp [ReadSt, hfold]
  refine ⟨h2, ?_, by rw [h2]⟩
  simp [ReadSt, hfold, Read, readFlat]

/-- Claim C10: an included flag with an unsigned-integer declared tag is
not widened to a 64-bit signed integer: it takes the default branch, so
with no value-transform callback its string rendering is stored (and no
`vInt64` appears under its key), and with a callback configured the
callback's (key, value) result is stored (or the flag dropped on an
empty key). -/
theorem claim_C10_unsigned (p : Posflag) (mp : FlatMap) (f : PFlag)
    (htag : f.typeTag ∈ (["uint", "uint8", "uint16", "uint32", "uint64"] : List String))
    (hgate : gateSkips p f = false) :
    (p.valueCallback = none →
      aget (processFlag p mp f) (candidateKey p f) = some (.vString f.render)
      ∧ ∀ i : Int, aget (processFlag p mp f) (candidateKey p f) ≠ some (.vInt64 i))
    ∧ (∀ cb, p.valueCallback = some cb →
      processFlag p mp f =
        if (cb (candidateKey p f) f.render).1 = "" then mp
        else aset mp (cb (candidateKey p f) f.render).1
          (cb (candidateKey p f) f.render).2) := by
  have hother : f.typeTag ∉ (["int", "int8", "int16", "int32", "int64", "float32",
      "float", "bool", "stringSlice", "intSlice"] : List String) := by
    simp only [List.mem_cons, List.not_mem_nil, or_false] at htag ⊢
    rcases htag with h | h | h | h | h <;> simp [h]
  constructor
  · intro hcb
    have hstore : processFlag p mp f = aset mp (candidateKey p f) (.vString f.render) := by
      simp [processFlag, hgate, storeFlag_default p mp f _ hother, hcb]
    rw [hstore]
    exact ⟨aget_aset_self mp _ _, fun i => by simp [aget_aset_self]⟩
  · intro cb hcb
    simp [processFlag, hgate, storeFlag_default p mp f _ hother, hcb]

theorem claim_C10_unsigned_witness :
    ((⟨"n", "uint8", true, .gOther, "200"⟩ : PFlag).typeTag ∈
      (["uint", "uint8", "uint16", "uint32", "uint64"] : List String))
    ∧ (gateSkips (Provider [⟨"n", "uint8", true, .gOther, "200"⟩] "." none)
        ⟨"n", "uint8", true, .gOther, "200"⟩ = false)
    ∧ aget (processFlag (Provider [⟨"n", "uint8", true, .gOther, "200"⟩] "." none)
        [] ⟨"n", "uint8", true, .gOther, "200"⟩)
        (candidateKey (Provider [⟨"n", "uint8", true, .gOther, "200"⟩] "." none)
          ⟨"n", "uint8", true, .gOther, "200"⟩) = some (.vString "200") :=
  ⟨by decide, by decide,
    ((claim_C10_unsigned (Provider [⟨"n", "uint8", true, .gOther, "200"⟩] "." none)
      [] ⟨"n", "uint8", true, .gOther, "200"⟩ (by decide) (by decide)).1 rfl).1⟩

/-- Claim C2: for a flat accumulator with no delimiter collisions, nesting
the keys by the configured delimiter (as `Read` does via `Unflatten`
before returning) and then re-flattening by the same delimiter reproduces
the original flat entry set exactly (as a multiset of entries). -/
theorem claim_C2_roundtrip (delim : String) (mp : FlatMap)
    (h : NoDelimCollisions delim mp) :
    List.Perm (Flatten (Unflatten mp delim) delim) mp := by
  obtain ⟨hkeys, hpw⟩ := h
  have hne : ∀ pv ∈ mp.map (fun kv => (splitKey kv.1 delim, kv.2)), pv.1 ≠ [] := by
    intro pv hpv
    obtain ⟨kv, hkv, rfl⟩ := List.mem_map.mp hpv
    exact (hkeys kv hkv).1
  have hpw' : (mp.map (fun kv => (splitKey kv.1 delim, kv.2))).Pairwise
      (fun pv qv => ¬ pv.1 <+: qv.1 ∧ ¬ qv.1 <+: pv.1) := by
    rw [List.pairwise_map]
    rw [List.pairwise_map] at hpw
    exact hpw
  have hsep : ∀ pv ∈ mp.map (fun kv => (splitKey kv.1 delim, kv.2)),
      ∀ q ∈ pathsOfMap ([] : NMap),
      ¬ pv.1 <+: q.1 ∧ ¬ q.1 <+: pv.1 := by
    intro pv _ q hq
    simp [pathsOfMap] at hq
  have hfold := pathsOfMap_foldl_insert
    (mp.map fun kv => (splitKey kv.1 delim, kv.2)) [] hne hpw' hsep
  have hUnfl : Unflatten mp delim =
      (mp.map (fun kv => (splitKey kv.1 delim, kv.2))).foldl
        (fun acc pv => insertPath acc pv.1 pv.2) [] := by
    rw [Unflatten, List.foldl_map]
  have hpaths : List.Perm (pathsOfMap (Unflatten mp delim))
      (mp.map (fun kv => (splitKey kv.1 delim, kv.2))) := by
    rw [hUnfl]
    simpa [pathsOfMap] using hfold
  rw [Flatten]
  refine (hpaths.map (fun pv => (String.intercalate delim pv.1, pv.2))).trans ?_
  rw [List.map_map]
  have hid : mp.map ((fun pv : List String × ConfValue =>
        (String.intercalate delim pv.1, pv.2)) ∘
      (fun kv : String × ConfValue => (splitKey kv.1 delim, kv.2))) = mp := by
    have := List.map_congr_left (l := mp)
      (f := (fun pv : List String × ConfValue =>
          (String.intercalate delim pv.1, pv.2)) ∘
        (fun kv : String × ConfValue => (splitKey kv.1 delim, kv.2)))
      (g := id)
      (fun kv hkv => by simp [Function.comp, (hkeys kv hkv).2])
    simpa using this
  rw [hid]

theorem claim_C2_roundtrip_witness :
    NoDelimCollisions "."
      [("parent.child.key", ConfValue.vInt64 1),
        ("parent.child.other", ConfValue.vBool true),
        ("top", ConfValue.vString "x")]
    ∧ List.Perm
      (Flatten (Unflatten
        [("parent.child.key", ConfValue.vInt64 1),
          ("parent.child.other", ConfValue.vBool true),
          ("top", ConfValue.vString "x")] ".") ".")
      [("parent.child.key", ConfValue.vInt64 1),
        ("parent.child.other", ConfValue.vBool true),
        ("top", ConfValue.vString "x")] :=
  ⟨by constructor
      · decide
      · decide,
    claim_C2_roundtrip "." _
      ⟨by decide, by decide⟩⟩
